import Mathlib

/-!
Verification of the rag-demo chunking / indexing / retrieval pipeline.

This file is a shallow embedding of the program's core logic:
`VectorDatabase.process_md_content`, `VectorDatabase.get_embedding`,
`VectorDatabase.build_index` and `VectorDatabase.load_database` from
`step2_vector_database.py`, and `RAGChatbot.load_vector_database`,
`RAGChatbot.search_similar_documents`, `RAGChatbot.generate_response` and
`RAGChatbot.chat` from `step3_qa_system.py`.  External services
(embedding/chat endpoints, the faiss library, the filesystem) are modelled
as explicit oracles/parameters; everything the Python code computes itself
is translated function by function.
-/

namespace RagDemo

/-- Decidable equality on `Except`, used to evaluate the embedded
functions on concrete inputs. -/
instance {ε α : Type} [DecidableEq ε] [DecidableEq α] : DecidableEq (Except ε α)
  | .ok x, .ok y =>
    if h : x = y then .isTrue (congrArg Except.ok h)
    else .isFalse (fun hc => h (Except.ok.inj hc))
  | .error x, .error y =>
    if h : x = y then .isTrue (congrArg Except.error h)
    else .isFalse (fun hc => h (Except.error.inj hc))
  | .ok _, .error _ => .isFalse (fun hc => Except.noConfusion hc)
  | .error _, .ok _ => .isFalse (fun hc => Except.noConfusion hc)

/-! ### String helpers, mirroring the Python builtins used by the source.

These are defined directly on `String.data` (a `List Char`) so that all
definitions reduce by ordinary structural recursion.  -/

/-- Embedding of Python `text.split('\n')`: splitting a character list at
every newline, keeping empty pieces (`''.split('\n') == ['']`). -/
def splitCharsOnNewline : List Char → List (List Char)
  | [] => [[]]
  | c :: rest =>
    match splitCharsOnNewline rest, decide (c = '\n') with
    | r, true => [] :: r
    | [], false => [[c]]
    | h :: t, false => (c :: h) :: t

/-- Embedding of Python `md_text.split('\n')`. -/
def pySplitLines (s : String) : List String :=
  (splitCharsOnNewline s.data).map String.mk

/-- Embedding of Python `str.strip()` (whitespace trim on both ends). -/
def pyStrip (s : String) : String :=
  String.mk (((s.data.dropWhile Char.isWhitespace).reverse.dropWhile Char.isWhitespace).reverse)

/-- Embedding of Python `sep.join(parts)`. -/
def pyJoin (sep : String) : List String → String
  | [] => ""
  | [x] => x
  | x :: xs => x ++ sep ++ pyJoin sep xs

/-- Embedding of Python `line_stripped.startswith('#')`. -/
def isHeadingLine (s : String) : Bool :=
  match s.data with
  | c :: _ => decide (c = '#')
  | [] => false

/-- Embedding of Python `len(s) - len(s.lstrip('#'))`: the number of
leading `'#'` characters. -/
def countLeadingHashes (s : String) : Nat :=
  (s.data.takeWhile (fun c => decide (c = '#'))).length

/-- Embedding of Python `min(levels)` on a non-empty list (`0` is never
reached by the program, which guards with non-emptiness). -/
def pyMin : List Nat → Nat
  | [] => 0
  | x :: xs => xs.foldl Nat.min x

/-! ### Chunker data model (`process_md_content`) -/

/-- One raw section produced by the heading scan
(`raw_sections` entries in `process_md_content`). -/
structure RawSection where
  text : String
  title : String
  level : Nat
deriving DecidableEq, Repr, Inhabited

/-- The `metadata` dict attached to each produced document. -/
structure ChunkMeta where
  file_path : String
  section_title : String
  combined_section_titles : String
  section_level : Nat
  sections_count : Nat
  char_count : Nat
deriving DecidableEq, Repr, Inhabited

/-- One produced document/chunk (`doc` dict in `process_md_content`). -/
structure Doc where
  text : String
  source : String
  title : String
  combined_titles : String
  level : Nat
  metadata : ChunkMeta
deriving DecidableEq, Repr, Inhabited

/-- Parser state of the line scan in `process_md_content`:
`raw_sections`, `current_section`, `current_title`, `section_level`. -/
structure ParseState where
  sections : List RawSection
  currentSection : List String
  currentTitle : String
  sectionLevel : Nat
deriving DecidableEq, Repr

/-- Embedding of the save-previous-section step (both occurrences of
`if current_section and current_title: ... if content: append`). -/
def flushSection (st : ParseState) : List RawSection :=
  if st.currentSection ≠ [] ∧ st.currentTitle ≠ "" then
    if pyStrip (pyJoin "\n" st.currentSection) ≠ "" then
      st.sections ++ [{ text := pyStrip (pyJoin "\n" st.currentSection)
                        title := st.currentTitle
                        level := st.sectionLevel }]
    else st.sections
  else st.sections

/-- Embedding of one iteration of the `for line in lines` scan
(`line_stripped = line.strip()` is inlined). -/
def parseLine (st : ParseState) (line : String) : ParseState :=
  if isHeadingLine (pyStrip line) then
    { sections := flushSection st
      currentSection := [line]
      currentTitle := pyStrip line
      sectionLevel := countLeadingHashes (pyStrip line) }
  else
    { st with currentSection := st.currentSection ++ [line] }

/-- Embedding of the heading scan of `process_md_content` over a given
line list: the final `raw_sections` value. -/
def rawSectionsOfLines (lines : List String) : List RawSection :=
  flushSection (lines.foldl parseLine ⟨[], [], "", 0⟩)

/-- The `raw_sections` list computed by `process_md_content md_text`. -/
def rawSections (md : String) : List RawSection :=
  rawSectionsOfLines (pySplitLines md)

/-- Embedding of the chunk-record construction (`doc = {...}`) shared by
the close-chunk and final-flush sites of `process_md_content`. -/
def mkDoc (fp c : String) (titles : List String) (levels : List Nat) : Doc :=
  let main_title := titles.headD ""
  let combined_titles := if 1 < titles.length then pyJoin " | " titles else main_title
  { text := c
    source := "markdown"
    title := main_title
    combined_titles := combined_titles
    level := pyMin levels
    metadata :=
      { file_path := fp
        section_title := main_title
        combined_section_titles := combined_titles
        section_level := pyMin levels
        sections_count := titles.length
        char_count := c.length } }

/-- Embedding of the merge loop of `process_md_content` (state:
`current_chunk`, `current_titles`, `current_levels`, `documents`),
including the final flush of the last block. -/
def mergeLoop (fp : String) (m : Nat) :
    List RawSection → String → List String → List Nat → List Doc → List Doc
  | [], c, titles, levels, docs =>
    if c = "" then docs else docs ++ [mkDoc fp c titles levels]
  | sec :: rest, c, titles, levels, docs =>
    if c = "" then
      mergeLoop fp m rest sec.text [sec.title] [sec.level] docs
    else if m ≤ c.length ∨ m * 2 < (c ++ "\n\n" ++ sec.text).length then
      mergeLoop fp m rest sec.text [sec.title] [sec.level]
        (docs ++ [mkDoc fp c titles levels])
    else
      mergeLoop fp m rest (c ++ "\n\n" ++ sec.text)
        (titles ++ [sec.title]) (levels ++ [sec.level]) docs

/-- Embedding of `process_md_content` over a pre-split line list. -/
def processLines (lines : List String) (fp : String) (m : Nat) : List Doc :=
  let secs := rawSectionsOfLines lines
  if secs = [] then [] else mergeLoop fp m secs "" [] [] []

/-- Embedding of `VectorDatabase.process_md_content(md_text, file_path,
min_chunk_size)` (default `min_chunk_size = 2000`). -/
def process_md_content (md fp : String) (m : Nat) : List Doc :=
  processLines (pySplitLines md) fp m

/-- Sum of `metadata['char_count']` over a document list. -/
def sumCharCounts (docs : List Doc) : Nat :=
  (docs.map (fun d => d.metadata.char_count)).sum

/-- Sum of the (trimmed) section text lengths. -/
def sumLens (secs : List RawSection) : Nat :=
  (secs.map (fun s => s.text.length)).sum

/-! ### Grouped view of the merge loop.

The merge loop of `process_md_content` keeps three parallel accumulators
(`current_chunk`, `current_titles`, `current_levels`).  The grouped view
below keeps instead the list of raw sections merged into the open block;
`mergeLoop_eq_groupLoop` proves the two agree.  Each produced chunk is
then `mkDocG` of the group of sections merged into it. -/

/-- The chunk text of a group of sections: the section texts joined by
the `'\n\n'` separator the merge loop inserts. -/
def joinTexts (g : List RawSection) : String :=
  pyJoin "\n\n" (g.map (fun s => s.text))

/-- The document built from a group of merged sections. -/
def mkDocG (fp : String) (g : List RawSection) : Doc :=
  mkDoc fp (joinTexts g) (g.map (fun s => s.title)) (g.map (fun s => s.level))

/-- Grouped form of the merge loop: the state is the group of sections
merged into the open block instead of the three parallel accumulators. -/
def groupLoop (m : Nat) :
    List RawSection → List RawSection → List (List RawSection) → List (List RawSection)
  | [], g, gs => if g = [] then gs else gs ++ [g]
  | sec :: rest, g, gs =>
    if g = [] then
      groupLoop m rest [sec] gs
    else if m ≤ (joinTexts g).length ∨ m * 2 < (joinTexts g ++ "\n\n" ++ sec.text).length then
      groupLoop m rest [sec] (gs ++ [g])
    else
      groupLoop m rest (g ++ [sec]) gs

/-- The groups of sections merged into each chunk. -/
def groupSections (m : Nat) (secs : List RawSection) : List (List RawSection) :=
  groupLoop m secs [] []

/-- Concatenation of a list of groups. -/
def concatAll : List (List RawSection) → List RawSection
  | [] => []
  | g :: gs => g ++ concatAll gs

/-! ### Database loading (`load_database` / `load_vector_database`).

The filesystem is modelled by the state of each of the four artifact
files of a database directory. -/

/-- State of one artifact file on disk. -/
inductive FileState
  | missing
  | unreadable
  | readable
deriving DecidableEq, Repr

/-- A database directory: the four artifacts
`index.faiss`, `texts.pkl`, `metadata.pkl`, `config.json`. -/
structure DBDir where
  indexFaiss : FileState
  textsPkl : FileState
  metadataPkl : FileState
  configJson : FileState
deriving DecidableEq, Repr

/-- The exceptions the two loaders can raise.  `corruptDatabaseError`
stands for the `CorruptDatabaseError` named by the spec; the source never
defines or raises it, it is listed so that its absence can be stated. -/
inductive LoadErr
  | rawFileError
  | wrappedLoadError
  | corruptDatabaseError
deriving DecidableEq, Repr

/-- Which of the three artifacts `VectorDatabase.load_database` actually
loaded into `self`. -/
structure LoadedFlags where
  indexLoaded : Bool
  textsLoaded : Bool
  metadataLoaded : Bool
deriving DecidableEq, Repr

/-- One `if os.path.exists(path): read(path)` step of
`VectorDatabase.load_database`: a missing file is silently skipped, a
present-but-unreadable file makes the read call raise. -/
def readIfExists : FileState → Except LoadErr Bool
  | .missing => .ok false
  | .unreadable => .error .rawFileError
  | .readable => .ok true

/-- Embedding of `VectorDatabase.load_database` (step2, lines 345-368):
each of `index.faiss`, `texts.pkl`, `metadata.pkl` is loaded only if it
exists; nothing is checked, nothing else is raised, and `config.json` is
not read at all. -/
def load_database (d : DBDir) : Except LoadErr LoadedFlags := do
  let i ← readIfExists d.indexFaiss
  let t ← readIfExists d.textsPkl
  let mdatum ← readIfExists d.metadataPkl
  return { indexLoaded := i, textsLoaded := t, metadataLoaded := mdatum }

/-- One strict read of `RAGChatbot.load_vector_database`: `faiss.read_index`
/ `open(...)` raise when the file is missing or unreadable. -/
def readStrict : FileState → Except LoadErr Unit
  | .readable => .ok ()
  | _ => .error .rawFileError

/-- Embedding of `RAGChatbot.load_vector_database` (step3, lines 53-75):
all four artifacts are read inside one `try`, and any exception is
re-raised as a generic wrapped `Exception`. -/
def load_vector_database (d : DBDir) : Except LoadErr Unit :=
  match (do
    let _ ← readStrict d.indexFaiss
    let _ ← readStrict d.textsPkl
    let _ ← readStrict d.metadataPkl
    let _ ← readStrict d.configJson
    return () : Except LoadErr Unit) with
  | .ok _ => .ok ()
  | .error _ => .error .wrappedLoadError

/-! ### Similarity search (`search_similar_documents`).

Embedding vectors are modelled as `List Rat` (stand-in for the float
lists the service returns; no claim depends on float rounding).  The
faiss index is modelled by its declared dimension `d` and an oracle for
the `(distances, indices)` rows it returns on a dimension-correct query;
`faiss.Index.search` itself asserts that the query's dimension equals
`self.d` and raises a generic `AssertionError` otherwise. -/

/-- Embedding vectors. -/
abbrev EmbVec := List Rat

/-- Errors of the query path.  `dimensionMismatchError` stands for the
`DimensionMismatchError` named by the spec; the source never defines or
raises it. -/
inductive SearchErr
  | assertionError
  | dimensionMismatchError
deriving DecidableEq, Repr

/-- Model of a loaded faiss index: declared dimension plus the
`(distance, index)` rows returned for a valid `top_k` query. -/
structure FaissIndexModel where
  d : Nat
  hits : Nat → List (Rat × Int)

/-- Modelled from the faiss Python wrapper: `Index.search(x, k)` checks
`x.shape[1] == self.d` with an `assert` and raises on mismatch; no code
of the repository performs any dimension check of its own. -/
def faissIndexSearch (idx : FaissIndexModel) (queryDim topK : Nat) :
    Except SearchErr (List (Rat × Int)) :=
  if queryDim = idx.d then .ok (idx.hits topK) else .error .assertionError

/-- One search hit as assembled by `search_similar_documents`. -/
structure SearchResult where
  text : String
  metadata : Doc
  similarity : Rat
  rank : Nat
deriving DecidableEq, Repr

/-- Embedding of the result-assembly loop of `search_similar_documents`
(`for i, (distance, idx) in enumerate(zip(...)): if idx != -1: ...`). -/
def buildResults (texts : List String) (metadata : List Doc)
    (hits : List (Rat × Int)) : List SearchResult :=
  ((List.range hits.length).zip hits).filterMap fun p =>
    if p.2.2 ≠ -1 then
      some { text := texts.getD p.2.2.toNat ""
             metadata := metadata.getD p.2.2.toNat default
             similarity := p.2.1
             rank := p.1 + 1 }
    else none

/-- Embedding of `RAGChatbot.search_similar_documents` (step3, lines
85-117): embed the query, (`faiss.normalize_L2` rescales the vector in
place, leaving its dimension unchanged), and call `self.index.search`
with the query vector as is — no truncation, padding or dimension check
happens in the repository's code. -/
def search_similar_documents (idx : FaissIndexModel)
    (texts : List String) (metadata : List Doc)
    (get_embedding_fn : String → EmbVec) (query : String) (top_k : Nat) :
    Except SearchErr (List SearchResult) :=
  let query_embedding := get_embedding_fn query
  match faissIndexSearch idx query_embedding.length top_k with
  | .error e => .error e
  | .ok hits => .ok (buildResults texts metadata hits)

/-! ### Index construction (`build_index`). -/

/-- One entry of the `content_list` consumed by `build_index`
(`md_data` may be absent, and `md_path` is read with `.get(..., '')`). -/
structure ContentData where
  md_data : Option String
  md_path : Option String
deriving DecidableEq, Repr

/-- Embedding of the document-collection loop of `build_index`: only
entries with a truthy `'md_data'` are chunked, with default
`min_chunk_size = 2000`. -/
def collectDocuments (content_list : List ContentData) : List Doc :=
  content_list.foldl (fun docs cd =>
    match cd.md_data with
    | some md => if md ≠ "" then docs ++ process_md_content md (cd.md_path.getD "") 2000 else docs
    | none => docs) []

/-- The three parallel arrays accumulated by the embedding loop of
`build_index` (`embeddings`, `texts`, `metadata`). -/
structure BuildAccum where
  embeddings : List EmbVec
  texts : List String
  metadata : List Doc
deriving Repr

/-- One iteration of the embedding loop of `build_index`: a chunk whose
`get_embedding` call raises is skipped (`except: continue`), otherwise
all three arrays are extended. -/
def buildStep (embed : String → Except String EmbVec)
    (acc : BuildAccum) (doc : Doc) : BuildAccum :=
  match embed doc.text with
  | .ok e => { embeddings := acc.embeddings ++ [e]
               texts := acc.texts ++ [doc.text]
               metadata := acc.metadata ++ [doc] }
  | .error _ => acc

/-- Embedding of `VectorDatabase.build_index` (step2, lines 231-312).
`embed` is the per-chunk outcome of `self.get_embedding` (success or the
exception escaping its retry loop).  The function returns `False` exactly
when the `embeddings` list is empty after the loop, `True` otherwise
(the faiss flat-IP index then built over the vectors is outside the
claims and not modelled further). -/
def build_index (embed : String → Except String EmbVec)
    (content_list : List ContentData) : Bool × BuildAccum :=
  let documents := collectDocuments content_list
  let acc := documents.foldl (buildStep embed) ⟨[], [], []⟩
  if acc.embeddings = [] then (false, acc) else (true, acc)

/-! ### Embedding retry loop (`get_embedding`). -/

/-- Outcome of `VectorDatabase.get_embedding`: a returned vector, a
re-raised exception, or the implicit `None` Python returns when
`max_retries = 0` makes the `for` loop body never run. -/
inductive EmbedOutcome
  | returned (e : EmbVec)
  | raised (msg : String)
  | fellThrough
deriving DecidableEq, Repr

/-- Embedding of the `for attempt in range(max_retries)` loop of
`VectorDatabase.get_embedding` (step2, lines 44-67).  `oracle attempt` is
the outcome of the service call on that attempt.  The result records the
outcome, the number of attempts made, and the list of back-off sleeps
(`time.sleep(2 ** attempt)`) performed, in order. -/
def getEmbeddingLoop (oracle : Nat → Except String EmbVec) (max_retries : Nat) :
    Nat → Nat → EmbedOutcome × Nat × List Nat
  | _, 0 => (.fellThrough, 0, [])
  | attempt, remaining + 1 =>
    match oracle attempt with
    | .ok e => (.returned e, attempt + 1, [])
    | .error msg =>
      if attempt < max_retries - 1 then
        let r := getEmbeddingLoop oracle max_retries (attempt + 1) remaining
        (r.1, r.2.1, 2 ^ attempt :: r.2.2)
      else (.raised msg, attempt + 1, [])

/-- Embedding of `VectorDatabase.get_embedding(text, max_retries)`
(default `max_retries = 3`): the loop starting at attempt `0`. -/
def get_embedding (oracle : Nat → Except String EmbVec) (max_retries : Nat) :
    EmbedOutcome × Nat × List Nat :=
  getEmbeddingLoop oracle max_retries 0 max_retries

/-! ### Prompt assembly and chat round-trip
(`generate_response` / `chat`). -/

/-- One chat message dict `{"role": ..., "content": ...}`. -/
structure Message where
  role : String
  content : String
deriving DecidableEq, Repr

/-- The system prompt of `generate_response` with the retrieved context
interpolated (`system_prompt.format(context=context)`). -/
def system_prompt_text (context : String) : String :=
  "你是一个智能助手，专门帮助企业内部提效。你会基于提供的文档内容来回答问题。\n\n请遵循以下规则：\n1. 主要基于提供的上下文内容来回答问题\n2. 如果上下文中没有相关信息，请诚实地说明\n3. 保持回答的准确性和专业性  \n4. 如果可能，提供具体的引用或出处\n5. 回答要简洁明了，便于理解\n6. 支持中文对话\n\n上下文信息：\n" ++ context ++ "\n"

/-- Embedding of the message-list construction of
`RAGChatbot.generate_response` (step3, lines 162-174): one system
message, then (if the history is truthy) its last 10 entries
(`conversation_history[-10:]`), then the current user query. -/
def generate_response_messages (user_query context : String)
    (conversation_history : List Message) : List Message :=
  let messages := [{ role := "system", content := system_prompt_text context }]
  let messages := if conversation_history ≠ [] then
      messages ++ conversation_history.drop (conversation_history.length - 10)
    else messages
  messages ++ [{ role := "user", content := user_query }]

/-- Embedding of `RAGChatbot.generate_response` (step3, lines 176-188):
the chat-completion call is made inside a `try`; on success its content
is returned, on failure the error message is returned as the answer
string instead of the exception propagating. -/
def generate_response (chat_oracle : List Message → Except String String)
    (user_query context : String) (history : List Message) : String :=
  match chat_oracle (generate_response_messages user_query context history) with
  | .ok content => content
  | .error e => "生成回答时出错: " ++ e

/-- The result dict of `RAGChatbot.chat` (the wall-clock `timestamp`
field is not modelled). -/
structure ChatResult where
  response : String
  context : String
  similar_documents : List SearchResult
deriving DecidableEq, Repr

/-- Embedding of `RAGChatbot.chat` (step3, lines 190-218).  `retrieve`
bundles `search_similar_documents` + `generate_context_from_documents`
(both may raise, e.g. the unguarded query embedding call, in which case
the exception propagates and the history is untouched).  On the completed
path the user turn and the assistant turn are appended to the history. -/
def chat (retrieve : String → Except String (List SearchResult × String))
    (chat_oracle : List Message → Except String String)
    (history : List Message) (user_query : String) :
    Except String (ChatResult × List Message) :=
  match retrieve user_query with
  | .error e => .error e
  | .ok (similar_docs, context) =>
    let response := generate_response chat_oracle user_query context history
    .ok ({ response := response, context := context, similar_documents := similar_docs },
      history ++ [{ role := "user", content := user_query },
        { role := "assistant", content := response }])

/-! ### Lemmas about the chunker -/

theorem str_length_pos (s : String) (h : s ≠ "") : 0 < s.length := by
  rcases s with ⟨data⟩
  cases data with
  | nil => exact absurd rfl h
  | cons c t => simp [String.length]

theorem joinTexts_nil : joinTexts [] = "" := rfl

theorem joinTexts_singleton (a : RawSection) : joinTexts [a] = a.text := rfl

theorem joinTexts_cons_cons (a b : RawSection) (t : List RawSection) :
    joinTexts (a :: b :: t) = a.text ++ "\n\n" ++ joinTexts (b :: t) := rfl

theorem joinTexts_append_single :
    ∀ (g : List RawSection) (s : RawSection), g ≠ [] →
      joinTexts (g ++ [s]) = joinTexts g ++ "\n\n" ++ s.text
  | [], _, h => absurd rfl h
  | [_], _, _ => rfl
  | a :: b :: t, s, _ => by
    have ih := joinTexts_append_single (b :: t) s (by simp)
    show joinTexts (a :: ((b :: t) ++ [s])) = joinTexts (a :: b :: t) ++ "\n\n" ++ s.text
    rw [show (b :: t) ++ [s] = b :: (t ++ [s]) from rfl] at ih ⊢
    rw [joinTexts_cons_cons a b (t ++ [s]), ih, joinTexts_cons_cons a b t]
    simp [String.append_assoc]

theorem joinTexts_length (g : List RawSection) (h : g ≠ []) :
    (joinTexts g).length + 2 = sumLens g + 2 * g.length := by
  induction g with
  | nil => exact absurd rfl h
  | cons a g ih =>
    cases g with
    | nil => simp [joinTexts_singleton, sumLens]
    | cons b t =>
      have hne : b :: t ≠ [] := by simp
      have := ih hne
      rw [joinTexts_cons_cons]
      simp only [sumLens, List.map_cons, List.sum_cons, List.length_cons] at this ⊢
      rw [String.length_append, String.length_append]
      have h2 : ("\n\n" : String).length = 2 := rfl
      omega

theorem joinTexts_length_le_append (g rest : List RawSection) (h : g ≠ []) :
    (joinTexts g).length ≤ (joinTexts (g ++ rest)).length := by
  induction rest generalizing g with
  | nil => simp
  | cons s t ih =>
    have hgs : g ++ s :: t = (g ++ [s]) ++ t := by simp
    rw [hgs]
    have h1 : (joinTexts g).length ≤ (joinTexts (g ++ [s])).length := by
      rw [joinTexts_append_single g s h, String.length_append, String.length_append]
      omega
    exact le_trans h1 (ih (g ++ [s]) (by simp))

theorem joinTexts_length_pos (g : List RawSection)
    (hg : ∀ s ∈ g, s.text ≠ "") (h : g ≠ []) : 0 < (joinTexts g).length := by
  cases g with
  | nil => exact absurd rfl h
  | cons a g =>
    cases g with
    | nil =>
      rw [joinTexts_singleton]
      exact str_length_pos a.text (hg a (by simp))
    | cons b t =>
      rw [joinTexts_cons_cons, String.length_append, String.length_append]
      have h2 : ("\n\n" : String).length = 2 := rfl
      omega

theorem joinTexts_ne_empty (g : List RawSection)
    (hg : ∀ s ∈ g, s.text ≠ "") (h : g ≠ []) : joinTexts g ≠ "" := by
  intro hcon
  have := joinTexts_length_pos g hg h
  rw [hcon] at this
  simp [String.length] at this

theorem flushSection_text_ne_empty (st : ParseState)
    (h : ∀ s ∈ st.sections, s.text ≠ "") :
    ∀ s ∈ flushSection st, s.text ≠ "" := by
  intro s hs
  unfold flushSection at hs
  split at hs
  · split at hs
    · rcases List.mem_append.mp hs with h1 | h1
      · exact h s h1
      · rcases List.mem_singleton.mp h1 with rfl
        simpa using ‹pyStrip (pyJoin "\n" st.currentSection) ≠ ""›
    · exact h s hs
  · exact h s hs

theorem parseLine_text_ne_empty (st : ParseState) (line : String)
    (h : ∀ s ∈ st.sections, s.text ≠ "") :
    ∀ s ∈ (parseLine st line).sections, s.text ≠ "" := by
  unfold parseLine
  split
  · exact flushSection_text_ne_empty st h
  · exact h

theorem foldl_parseLine_text_ne_empty (lines : List String) (st : ParseState)
    (h : ∀ s ∈ st.sections, s.text ≠ "") :
    ∀ s ∈ (lines.foldl parseLine st).sections, s.text ≠ "" := by
  induction lines generalizing st with
  | nil => exact h
  | cons l t ih =>
    exact ih (parseLine st l) (parseLine_text_ne_empty st l h)

theorem rawSectionsOfLines_text_ne_empty (lines : List String) :
    ∀ s ∈ rawSectionsOfLines lines, s.text ≠ "" := by
  unfold rawSectionsOfLines
  exact flushSection_text_ne_empty _ (foldl_parseLine_text_ne_empty lines _ (by simp))

theorem rawSections_text_ne_empty (md : String) :
    ∀ s ∈ rawSections md, s.text ≠ "" :=
  rawSectionsOfLines_text_ne_empty (pySplitLines md)

theorem mkDocG_eq (fp : String) (g : List RawSection) :
    mkDoc fp (joinTexts g) (g.map (fun s => s.title)) (g.map (fun s => s.level))
      = mkDocG fp g := rfl

/-- The merge loop with its three parallel accumulators agrees with the
grouped view that accumulates the merged sections themselves. -/
theorem mergeLoop_eq_groupLoop (fp : String) (m : Nat) :
    ∀ (secs g : List RawSection) (gs : List (List RawSection)),
      (∀ s ∈ secs, s.text ≠ "") → (∀ s ∈ g, s.text ≠ "") →
      mergeLoop fp m secs (joinTexts g) (g.map (fun s => s.title))
        (g.map (fun s => s.level)) (gs.map (mkDocG fp))
        = (groupLoop m secs g gs).map (mkDocG fp) := by
  intro secs
  induction secs with
  | nil =>
    intro g gs _ hg
    by_cases hgnil : g = []
    · subst hgnil
      simp [mergeLoop, groupLoop, joinTexts_nil]
    · have hne := joinTexts_ne_empty g hg hgnil
      simp only [mergeLoop, groupLoop, if_neg hne, if_neg hgnil, mkDocG_eq, List.map_append]
      rfl
  | cons sec rest ih =>
    intro g gs hsecs hg
    have hsec : sec.text ≠ "" := hsecs sec (by simp)
    have hrest : ∀ s ∈ rest, s.text ≠ "" := fun s hs => hsecs s (by simp [hs])
    by_cases hgnil : g = []
    · subst hgnil
      simp only [mergeLoop, groupLoop, joinTexts_nil, if_pos rfl, List.map_nil]
      have h1 : sec.text = joinTexts [sec] := rfl
      have h2 : [sec.title] = [sec].map (fun s => s.title) := rfl
      have h3 : [sec.level] = [sec].map (fun s => s.level) := rfl
      rw [h1, h2, h3]
      exact ih [sec] gs hrest (by simpa using hsec)
    · have hne := joinTexts_ne_empty g hg hgnil
      simp only [mergeLoop, groupLoop, if_neg hne, if_neg hgnil]
      by_cases hcond : m ≤ (joinTexts g).length ∨ m * 2 < (joinTexts g ++ "\n\n" ++ sec.text).length
      · rw [if_pos hcond, if_pos hcond]
        have h1 : sec.text = joinTexts [sec] := rfl
        have h2 : [sec.title] = [sec].map (fun s => s.title) := rfl
        have h3 : [sec.level] = [sec].map (fun s => s.level) := rfl
        have h4 : gs.map (mkDocG fp) ++ [mkDoc fp (joinTexts g)
            (g.map (fun s => s.title)) (g.map (fun s => s.level))]
            = (gs ++ [g]).map (mkDocG fp) := by
          rw [List.map_append, mkDocG_eq]
          rfl
        rw [h1, h2, h3, h4]
        exact ih [sec] (gs ++ [g]) hrest (by simpa using hsec)
      · rw [if_neg hcond, if_neg hcond]
        have h1 : joinTexts g ++ "\n\n" ++ sec.text = joinTexts (g ++ [sec]) :=
          (joinTexts_append_single g sec hgnil).symm
        have h2 : g.map (fun s => s.title) ++ [sec.title]
            = (g ++ [sec]).map (fun s => s.title) := by simp
        have h3 : g.map (fun s => s.level) ++ [sec.level]
            = (g ++ [sec]).map (fun s => s.level) := by simp
        rw [h1, h2, h3]
        refine ih (g ++ [sec]) gs hrest ?_
        intro s hs
        rcases List.mem_append.mp hs with h | h
        · exact hg s h
        · rcases List.mem_singleton.mp h with rfl
          exact hsec

theorem groupLoop_cons_nilAcc (m : Nat) (sec : RawSection)
    (rest : List RawSection) (gs : List (List RawSection)) :
    groupLoop m (sec :: rest) [] gs = groupLoop m rest [sec] gs := by
  simp [groupLoop]

theorem concatAll_append (xs ys : List (List RawSection)) :
    concatAll (xs ++ ys) = concatAll xs ++ concatAll ys := by
  induction xs with
  | nil => rfl
  | cons g xs ih => simp [concatAll, ih]

/-- The groups produced by the grouped merge loop flatten back to the
input sections: no section is lost, duplicated or reordered. -/
theorem concatAll_groupLoop (m : Nat) :
    ∀ (secs g : List RawSection) (gs : List (List RawSection)),
      concatAll (groupLoop m secs g gs) = concatAll gs ++ g ++ secs := by
  intro secs
  induction secs with
  | nil =>
    intro g gs
    by_cases hg : g = []
    · subst hg; simp [groupLoop]
    · simp [groupLoop, if_neg hg, concatAll_append, concatAll]
  | cons sec rest ih =>
    intro g gs
    by_cases hg : g = []
    · subst hg
      rw [groupLoop_cons_nilAcc, ih [sec] gs]
      simp [concatAll]
    · simp only [groupLoop, if_neg hg]
      by_cases hcond : m ≤ (joinTexts g).length ∨ m * 2 < (joinTexts g ++ "\n\n" ++ sec.text).length
      · rw [if_pos hcond, ih [sec] (gs ++ [g])]
        simp [concatAll_append, concatAll]
      · rw [if_neg hcond, ih (g ++ [sec]) gs]
        simp

/-- Every group produced by the grouped merge loop is non-empty. -/
theorem groupLoop_ne_nil (m : Nat) :
    ∀ (secs g : List RawSection) (gs : List (List RawSection)),
      (∀ G ∈ gs, G ≠ []) → ∀ G ∈ groupLoop m secs g gs, G ≠ [] := by
  intro secs
  induction secs with
  | nil =>
    intro g gs hgs G hG
    by_cases hg : g = []
    · subst hg
      simp only [groupLoop, if_pos rfl] at hG
      exact hgs G hG
    · simp only [groupLoop, if_neg hg] at hG
      rcases List.mem_append.mp hG with h | h
      · exact hgs G h
      · rcases List.mem_singleton.mp h with rfl; exact hg
  | cons sec rest ih =>
    intro g gs hgs G hG
    by_cases hg : g = []
    · subst hg
      rw [groupLoop_cons_nilAcc] at hG
      exact ih [sec] gs hgs G hG
    · simp only [groupLoop, if_neg hg] at hG
      by_cases hcond : m ≤ (joinTexts g).length ∨ m * 2 < (joinTexts g ++ "\n\n" ++ sec.text).length
      · rw [if_pos hcond] at hG
        refine ih [sec] (gs ++ [g]) ?_ G hG
        intro G' hG'
        rcases List.mem_append.mp hG' with h | h
        · exact hgs G' h
        · rcases List.mem_singleton.mp h with rfl; exact hg
      · rw [if_neg hcond] at hG
        exact ih (g ++ [sec]) gs hgs G hG

/-- `process_md_content` (line-list form) equals the grouped view. -/
theorem processLines_eq_groups (lines : List String) (fp : String) (m : Nat) :
    processLines lines fp m
      = (groupSections m (rawSectionsOfLines lines)).map (mkDocG fp) := by
  by_cases h : rawSectionsOfLines lines = []
  · show (if rawSectionsOfLines lines = [] then ([] : List Doc)
      else mergeLoop fp m (rawSectionsOfLines lines) "" [] [] []) = _
    rw [if_pos h, h]
    rfl
  · show (if rawSectionsOfLines lines = [] then ([] : List Doc)
      else mergeLoop fp m (rawSectionsOfLines lines) "" [] [] []) = _
    rw [if_neg h]
    have := mergeLoop_eq_groupLoop fp m (rawSectionsOfLines lines) [] []
      (rawSectionsOfLines_text_ne_empty lines) (by simp)
    simpa [joinTexts_nil, groupSections] using this

/-- `process_md_content` equals the grouped view of its merge loop. -/
theorem process_md_content_eq_groups (md fp : String) (m : Nat) :
    process_md_content md fp m
      = (groupSections m (rawSections md)).map (mkDocG fp) :=
  processLines_eq_groups (pySplitLines md) fp m

/-- While the accumulated block plus everything still to come stays below
`min_chunk_size`, the merge loop never closes a block: everything ends up
in one group. -/
theorem groupLoop_no_close (m : Nat) :
    ∀ (rest g : List RawSection) (gs : List (List RawSection)), g ≠ [] →
      (joinTexts (g ++ rest)).length < m →
      groupLoop m rest g gs = gs ++ [g ++ rest] := by
  intro rest
  induction rest with
  | nil =>
    intro g gs hg _
    simp [groupLoop, if_neg hg]
  | cons s t ih =>
    intro g gs hg hlen
    have hgs : g ++ s :: t = (g ++ [s]) ++ t := by simp
    have hg1 : (joinTexts g).length ≤ (joinTexts (g ++ s :: t)).length :=
      joinTexts_length_le_append g (s :: t) hg
    have hg2 : (joinTexts (g ++ [s])).length ≤ (joinTexts (g ++ s :: t)).length := by
      rw [hgs]
      exact joinTexts_length_le_append (g ++ [s]) t (by simp)
    have hcond : ¬(m ≤ (joinTexts g).length ∨
        m * 2 < (joinTexts g ++ "\n\n" ++ s.text).length) := by
      rw [← joinTexts_append_single g s hg]
      push_neg
      constructor
      · omega
      · omega
    simp only [groupLoop, if_neg hg, if_neg hcond]
    rw [ih (g ++ [s]) gs (by simp) (by rw [← hgs]; exact hlen)]
    simp

/-- If the whole input joins to a string shorter than `min_chunk_size`,
everything is merged into a single group. -/
theorem groupSections_single (m : Nat) (secs : List RawSection)
    (h0 : secs ≠ []) (h : (joinTexts secs).length < m) :
    groupSections m secs = [secs] := by
  cases secs with
  | nil => exact absurd rfl h0
  | cons s rest =>
    unfold groupSections
    rw [groupLoop_cons_nilAcc, groupLoop_no_close m rest [s] [] (by simp) (by simpa using h)]
    simp

theorem sumCharCounts_cons (d : Doc) (docs : List Doc) :
    sumCharCounts (d :: docs) = d.metadata.char_count + sumCharCounts docs := by
  simp [sumCharCounts]

theorem sumLens_append (xs ys : List RawSection) :
    sumLens (xs ++ ys) = sumLens xs + sumLens ys := by
  simp [sumLens]

theorem mkDocG_char_count (fp : String) (g : List RawSection) :
    (mkDocG fp g).metadata.char_count = (joinTexts g).length := rfl

/-- Character-count accounting over the produced groups: each group of
`k` sections contributes its section lengths plus `2·(k-1)` separator
characters. -/
theorem sumCharCounts_over_groups (fp : String) :
    ∀ gs : List (List RawSection), (∀ g ∈ gs, g ≠ []) →
      sumCharCounts (gs.map (mkDocG fp)) + 2 * gs.length
        = sumLens (concatAll gs) + 2 * (concatAll gs).length := by
  intro gs
  induction gs with
  | nil => simp [sumCharCounts, concatAll, sumLens]
  | cons g t ih =>
    intro h
    have hg : g ≠ [] := h g (by simp)
    have ht := ih (fun G hG => h G (by simp [hG]))
    have hlen := joinTexts_length g hg
    show sumCharCounts (mkDocG fp g :: t.map (mkDocG fp)) + 2 * (g :: t).length
      = sumLens (concatAll (g :: t)) + 2 * (concatAll (g :: t)).length
    rw [sumCharCounts_cons, mkDocG_char_count]
    show _ = sumLens (g ++ concatAll t) + 2 * (g ++ concatAll t).length
    rw [sumLens_append, List.length_append, List.length_cons]
    omega

/-! ### Lemmas about the preamble of the heading scan -/

theorem flushSection_empty_title (secs : List RawSection)
    (cs : List String) (lvl : Nat) :
    flushSection ⟨secs, cs, "", lvl⟩ = secs := by
  simp [flushSection]

/-- Lines scanned while no heading has been seen yet only change the
(to-be-discarded) `current_section` buffer, so the raw sections do not
depend on anything before the first heading line. -/
theorem foldl_parseLine_preamble :
    ∀ (lines : List String) (secs : List RawSection) (cs cs' : List String)
      (lvl lvl' : Nat),
      flushSection (lines.foldl parseLine ⟨secs, cs, "", lvl⟩)
        = flushSection ((lines.dropWhile fun l => !(isHeadingLine (pyStrip l))).foldl
            parseLine ⟨secs, cs', "", lvl'⟩) := by
  intro lines
  induction lines with
  | nil =>
    intro secs cs cs' lvl lvl'
    simp [flushSection_empty_title]
  | cons l rest ih =>
    intro secs cs cs' lvl lvl'
    by_cases hl : isHeadingLine (pyStrip l)
    · have hp : (!(isHeadingLine (pyStrip l))) = false := by simp [hl]
      rw [List.dropWhile_cons, if_neg (by simp [hp])]
      show flushSection (rest.foldl parseLine (parseLine ⟨secs, cs, "", lvl⟩ l))
        = flushSection (rest.foldl parseLine (parseLine ⟨secs, cs', "", lvl'⟩ l))
      have e1 : parseLine ⟨secs, cs, "", lvl⟩ l
          = ⟨secs, [l], pyStrip l, countLeadingHashes (pyStrip l)⟩ := by
        simp [parseLine, hl, flushSection_empty_title]
      have e2 : parseLine ⟨secs, cs', "", lvl'⟩ l
          = ⟨secs, [l], pyStrip l, countLeadingHashes (pyStrip l)⟩ := by
        simp [parseLine, hl, flushSection_empty_title]
      rw [e1, e2]
    · have hl' : isHeadingLine (pyStrip l) = false := by simpa using hl
      rw [List.dropWhile_cons, if_pos (by simp [hl'])]
      show flushSection (rest.foldl parseLine (parseLine ⟨secs, cs, "", lvl⟩ l))
        = flushSection ((rest.dropWhile fun l => !(isHeadingLine (pyStrip l))).foldl
            parseLine ⟨secs, cs', "", lvl'⟩)
      have e1 : parseLine ⟨secs, cs, "", lvl⟩ l = ⟨secs, cs ++ [l], "", lvl⟩ := by
        simp [parseLine, hl']
      rw [e1]
      exact ih secs (cs ++ [l]) cs' lvl lvl'

/-- The raw sections of a line list equal those of the list with its
pre-heading preamble removed. -/
theorem rawSectionsOfLines_drop_preamble (lines : List String) :
    rawSectionsOfLines lines
      = rawSectionsOfLines (lines.dropWhile fun l => !(isHeadingLine (pyStrip l))) :=
  foldl_parseLine_preamble lines [] [] [] 0 0

/-- A line list with no heading line produces no raw sections. -/
theorem rawSectionsOfLines_no_heading (lines : List String)
    (h : ∀ l ∈ lines, isHeadingLine (pyStrip l) = false) :
    rawSectionsOfLines lines = [] := by
  rw [rawSectionsOfLines_drop_preamble]
  have : (lines.dropWhile fun l => !(isHeadingLine (pyStrip l))) = [] :=
    List.dropWhile_eq_nil_iff.mpr (fun l hl => by simp [h l hl])
  rw [this]
  exact flushSection_empty_title [] [] 0

/-! ### Lemmas about `build_index` -/

theorem exceptToOption_eq_none (e : Except String EmbVec) :
    e.toOption = none ↔ e.isOk = false := by
  cases e <;> simp [Except.toOption, Except.isOk, Except.toBool]

theorem buildFold_embeddings (embed : String → Except String EmbVec) :
    ∀ (docs : List Doc) (acc : BuildAccum),
      (docs.foldl (buildStep embed) acc).embeddings
        = acc.embeddings ++ docs.filterMap (fun d => (embed d.text).toOption) := by
  intro docs
  induction docs with
  | nil => intro acc; simp
  | cons d t ih =>
    intro acc
    show (t.foldl (buildStep embed) (buildStep embed acc d)).embeddings = _
    rw [ih (buildStep embed acc d)]
    unfold buildStep
    cases he : embed d.text with
    | ok e => simp [he, List.filterMap_cons, Except.toOption]
    | error msg => simp [he, List.filterMap_cons, Except.toOption]

theorem buildFold_metadata (embed : String → Except String EmbVec) :
    ∀ (docs : List Doc) (acc : BuildAccum),
      (docs.foldl (buildStep embed) acc).metadata
        = acc.metadata ++ docs.filter (fun d => (embed d.text).isOk) := by
  intro docs
  induction docs with
  | nil => intro acc; simp
  | cons d t ih =>
    intro acc
    show (t.foldl (buildStep embed) (buildStep embed acc d)).metadata = _
    rw [ih (buildStep embed acc d)]
    unfold buildStep
    cases he : embed d.text with
    | ok e => simp [he, List.filter_cons, Except.isOk, Except.toBool]
    | error msg => simp [he, List.filter_cons, Except.isOk, Except.toBool]

/-! ### Specification of the retry loop -/

theorem getEmbeddingLoop_spec (oracle : Nat → Except String EmbVec) (mr : Nat) :
    ∀ (remaining attempt : Nat), attempt + remaining = mr → 0 < remaining →
      (attempt + 1 ≤ (getEmbeddingLoop oracle mr attempt remaining).2.1
        ∧ (getEmbeddingLoop oracle mr attempt remaining).2.1 ≤ mr)
      ∧ (getEmbeddingLoop oracle mr attempt remaining).2.2
          = (List.range' attempt
              ((getEmbeddingLoop oracle mr attempt remaining).2.1 - 1 - attempt)).map
              (fun a => 2 ^ a)
      ∧ ((∀ a, attempt ≤ a → a < mr → (oracle a).isOk = false) →
          (getEmbeddingLoop oracle mr attempt remaining).2.1 = mr
          ∧ ∃ msg, oracle (mr - 1) = .error msg
            ∧ (getEmbeddingLoop oracle mr attempt remaining).1 = .raised msg) := by
  intro remaining
  induction remaining with
  | zero => intro attempt _ hpos; omega
  | succ r ih =>
    intro attempt hsum _
    cases horacle : oracle attempt with
    | ok e =>
      simp only [getEmbeddingLoop, horacle]
      refine ⟨⟨le_refl _, by omega⟩, by simp, ?_⟩
      intro hall
      have := hall attempt (le_refl _) (by omega)
      rw [horacle] at this
      simp [Except.isOk, Except.toBool] at this
    | error msg =>
      by_cases hlast : attempt < mr - 1
      · have hr : 0 < r := by omega
        have := ih (attempt + 1) (by omega) hr
        simp only [getEmbeddingLoop, horacle, if_pos hlast]
        obtain ⟨⟨hlo, hhi⟩, hsleeps, hfail⟩ := this
        refine ⟨⟨by omega, hhi⟩, ?_, ?_⟩
        · have hk : (getEmbeddingLoop oracle mr (attempt + 1) r).2.1 - 1 - attempt
              = ((getEmbeddingLoop oracle mr (attempt + 1) r).2.1 - 1 - (attempt + 1)) + 1 := by
            omega
          rw [hsleeps, hk, List.range'_succ attempt _ 1, List.map_cons]
        · intro hall
          exact hfail (fun a ha1 ha2 => hall a (by omega) ha2)
      · have hmr : attempt + 1 = mr := by omega
        simp only [getEmbeddingLoop, horacle, if_neg hlast]
        refine ⟨⟨le_refl _, by omega⟩, by simp, ?_⟩
        intro _
        refine ⟨by omega, msg, ?_, rfl⟩
        rw [show mr - 1 = attempt from by omega]
        exact horacle

/-! ### Claim theorems -/

/-- C1, counterexample: on `"# A\nfoo\n# B\nbar"` the two trimmed
sections have lengths 7 + 7 = 14, but the single merged chunk's
`char_count` is 16 — the `'\n\n'` separator inserted by the merge is
counted, so the claimed equality fails. -/
theorem claim1_counterexample :
    sumCharCounts (process_md_content "# A\nfoo\n# B\nbar" "" 2000)
        ≠ sumLens (rawSections "# A\nfoo\n# B\nbar")
    ∧ sumCharCounts (process_md_content "# A\nfoo\n# B\nbar" "" 2000) = 16
    ∧ sumLens (rawSections "# A\nfoo\n# B\nbar") = 14 := by
  decide

/-- C1, amended: for every Markdown input, the sum of `char_count` over
the chunks returned by `process_md_content` equals the sum of the
trimmed section lengths plus two characters per merge (the `'\n\n'`
separator), i.e. `Σ char_count + 2·#chunks = Σ section lengths +
2·#sections`. -/
theorem claim1_char_count_accounting (md fp : String) (m : Nat) :
    sumCharCounts (process_md_content md fp m) + 2 * (process_md_content md fp m).length
      = sumLens (rawSections md) + 2 * (rawSections md).length := by
  rw [process_md_content_eq_groups, List.length_map]
  have hne : ∀ G ∈ groupSections m (rawSections md), G ≠ [] :=
    groupLoop_ne_nil m (rawSections md) [] [] (by simp)
  have hcat : concatAll (groupSections m (rawSections md)) = rawSections md := by
    simpa [concatAll, groupSections] using concatAll_groupLoop m (rawSections md) [] []
  rw [sumCharCounts_over_groups fp _ hne, hcat]

/-- C4, counterexample: `"# A\n# A\n# A\n# A"` has four sections of
total trimmed length 12 < `minChunkSize` = 13, yet `process_md_content`
returns two chunks, because the `'\n\n'` separators make the accumulated
block reach the threshold mid-way. -/
theorem claim4_counterexample :
    sumLens (rawSections "# A\n# A\n# A\n# A") < 13
    ∧ (process_md_content "# A\n# A\n# A\n# A" "" 13).length = 2 := by
  decide

/-- C4, amended: if the input has at least one section and the total
trimmed section length plus two characters per merge boundary
(`2·(#sections − 1)`) is below `minChunkSize`, then `process_md_content`
returns exactly one chunk, whose text is the section texts joined in
document order by `'\n\n'`. -/
theorem claim4_small_input_single_chunk (md fp : String) (m : Nat)
    (h0 : rawSections md ≠ [])
    (h : sumLens (rawSections md) + 2 * ((rawSections md).length - 1) < m) :
    process_md_content md fp m = [mkDocG fp (rawSections md)]
    ∧ (process_md_content md fp m).length = 1
    ∧ ∀ d ∈ process_md_content md fp m, d.text = joinTexts (rawSections md) := by
  have hlen : 0 < (rawSections md).length := List.length_pos.mpr h0
  have hjl := joinTexts_length (rawSections md) h0
  have hjlt : (joinTexts (rawSections md)).length < m := by omega
  have hmain : process_md_content md fp m = [mkDocG fp (rawSections md)] := by
    rw [process_md_content_eq_groups, groupSections_single m (rawSections md) h0 hjlt]
    rfl
  refine ⟨hmain, by rw [hmain]; rfl, ?_⟩
  intro d hd
  rw [hmain] at hd
  rcases List.mem_singleton.mp hd with rfl
  rfl

/-- C4, witness: `"# A\nfoo"` (one section, length 7 < 2000) yields
exactly one chunk containing the whole section. -/
theorem claim4_small_input_single_chunk_witness :
    process_md_content "# A\nfoo" "" 2000 = [mkDocG "" (rawSections "# A\nfoo")]
    ∧ (process_md_content "# A\nfoo" "" 2000).length = 1
    ∧ ∀ d ∈ process_md_content "# A\nfoo" "" 2000,
        d.text = joinTexts (rawSections "# A\nfoo") :=
  claim4_small_input_single_chunk "# A\nfoo" "" 2000 (by decide) (by decide)

/-- C9: the scenario `"# A\nfoo\n# B\nbar"` with `minChunkSize` = 1000
produces the single merged chunk with `combined_titles = "# A | # B"`
and `level = 1`; and in general every chunk produced by
`process_md_content` is built from a non-empty group of merged sections
with its `level` equal to the minimum level among them. -/
theorem claim9_merge_scenario_level :
    (process_md_content "# A\nfoo\n# B\nbar" "" 1000
      = [{ text := "# A\nfoo\n\n# B\nbar"
           source := "markdown"
           title := "# A"
           combined_titles := "# A | # B"
           level := 1
           metadata := { file_path := ""
                         section_title := "# A"
                         combined_section_titles := "# A | # B"
                         section_level := 1
                         sections_count := 2
                         char_count := 16 } }])
    ∧ ∀ (md fp : String) (m : Nat), ∀ d ∈ process_md_content md fp m,
        ∃ g, g ∈ groupSections m (rawSections md) ∧ g ≠ [] ∧ d = mkDocG fp g
          ∧ d.level = pyMin (g.map (fun s => s.level)) := by
  constructor
  · decide
  · intro md fp m d hd
    rw [process_md_content_eq_groups] at hd
    obtain ⟨g, hgmem, rfl⟩ := List.mem_map.mp hd
    exact ⟨g, hgmem, groupLoop_ne_nil m (rawSections md) [] [] (by simp) g hgmem, rfl, rfl⟩

/-- C9, witness: the general level clause applied to the scenario's own
chunk. -/
theorem claim9_merge_scenario_level_witness :
    ∃ g, g ∈ groupSections 1000 (rawSections "# A\nfoo\n# B\nbar") ∧ g ≠ []
      ∧ ({ text := "# A\nfoo\n\n# B\nbar"
           source := "markdown"
           title := "# A"
           combined_titles := "# A | # B"
           level := 1
           metadata := { file_path := ""
                         section_title := "# A"
                         combined_section_titles := "# A | # B"
                         section_level := 1
                         sections_count := 2
                         char_count := 16 } } : Doc) = mkDocG "" g
      ∧ ({ text := "# A\nfoo\n\n# B\nbar"
           source := "markdown"
           title := "# A"
           combined_titles := "# A | # B"
           level := 1
           metadata := { file_path := ""
                         section_title := "# A"
                         combined_section_titles := "# A | # B"
                         section_level := 1
                         sections_count := 2
                         char_count := 16 } } : Doc).level
        = pyMin (g.map (fun s => s.level)) :=
  claim9_merge_scenario_level.2 "# A\nfoo\n# B\nbar" "" 1000 _ (by decide)

/-- C10: the chunker's output does not depend on lines before the first
heading line (processing only from the first heading gives the same
chunks), and an input with no heading line at all yields no chunks. -/
theorem claim10_preamble_discarded :
    (∀ (lines : List String) (fp : String) (m : Nat),
      processLines lines fp m
        = processLines (lines.dropWhile fun l => !(isHeadingLine (pyStrip l))) fp m)
    ∧ ∀ (md fp : String) (m : Nat),
        (∀ l ∈ pySplitLines md, isHeadingLine (pyStrip l) = false) →
        process_md_content md fp m = [] := by
  constructor
  · intro lines fp m
    show (if rawSectionsOfLines lines = [] then ([] : List Doc)
        else mergeLoop fp m (rawSectionsOfLines lines) "" [] [] [])
      = (if rawSectionsOfLines (lines.dropWhile fun l => !(isHeadingLine (pyStrip l))) = []
          then ([] : List Doc)
          else mergeLoop fp m
            (rawSectionsOfLines (lines.dropWhile fun l => !(isHeadingLine (pyStrip l))))
            "" [] [] [])
    rw [rawSectionsOfLines_drop_preamble lines]
  · intro md fp m h
    show (if rawSectionsOfLines (pySplitLines md) = [] then ([] : List Doc)
        else mergeLoop fp m (rawSectionsOfLines (pySplitLines md)) "" [] [] [])
      = []
    rw [rawSectionsOfLines_no_heading (pySplitLines md) h]
    rfl

/-- C10, witness: `"hello\nworld"` has no heading line and yields no
chunks. -/
theorem claim10_preamble_discarded_witness :
    process_md_content "hello\nworld" "x" 2000 = [] :=
  claim10_preamble_discarded.2 "hello\nworld" "x" 2000 (by decide)

/-- C2, counterexample: a directory with all four artifacts missing is
loaded by `VectorDatabase.load_database` without any error — it
completes silently with nothing loaded, instead of failing. -/
theorem claim2_counterexample :
    load_database ⟨.missing, .missing, .missing, .missing⟩
      = .ok { indexLoaded := false, textsLoaded := false, metadataLoaded := false } := by
  decide

/-- C2, amended: `RAGChatbot.load_vector_database` fails with a generic
wrapped `Exception` (never a `CorruptDatabaseError`, which the code does
not define) whenever any of the four artifacts is missing or unreadable,
while `VectorDatabase.load_database` completes without error whenever no
present artifact is unreadable, silently skipping missing ones. -/
theorem claim2_load_behavior (d : DBDir) :
    (¬(d.indexFaiss = FileState.readable ∧ d.textsPkl = FileState.readable
        ∧ d.metadataPkl = FileState.readable ∧ d.configJson = FileState.readable) →
      load_vector_database d = .error .wrappedLoadError)
    ∧ load_vector_database d ≠ .error .corruptDatabaseError
    ∧ ((d.indexFaiss ≠ FileState.unreadable ∧ d.textsPkl ≠ FileState.unreadable
        ∧ d.metadataPkl ≠ FileState.unreadable) →
      (load_database d).isOk = true) := by
  rcases d with ⟨f1, f2, f3, f4⟩
  cases f1 <;> cases f2 <;> cases f3 <;> cases f4 <;> decide

/-- C2, witness: on the all-missing directory, the step3 loader raises
its wrapped exception while the step2 loader succeeds silently. -/
theorem claim2_load_behavior_witness :
    load_vector_database ⟨.missing, .missing, .missing, .missing⟩
      = .error .wrappedLoadError
    ∧ (load_database ⟨.missing, .missing, .missing, .missing⟩).isOk = true :=
  ⟨(claim2_load_behavior ⟨.missing, .missing, .missing, .missing⟩).1 (by decide),
    (claim2_load_behavior ⟨.missing, .missing, .missing, .missing⟩).2.2 (by decide)⟩

/-- C3, counterexample: on a dimension-3 query against a dimension-2
index the search fails with the library's assertion error, not with the
`DimensionMismatchError` named by the claim (which no code defines or
raises). -/
theorem claim3_counterexample :
    search_similar_documents ⟨2, fun _ => []⟩ [] [] (fun _ => [0, 0, 0]) "q" 5
      ≠ Except.error SearchErr.dimensionMismatchError
    ∧ search_similar_documents ⟨2, fun _ => []⟩ [] [] (fun _ => [0, 0, 0]) "q" 5
      = .error .assertionError := by
  decide

/-- C3, amended: whenever the query embedding's dimension differs from
the loaded index's declared dimension, `search_similar_documents` fails
with the underlying index's assertion error (the vector is neither
truncated nor searched), not with a `DimensionMismatchError`. -/
theorem claim3_dimension_mismatch (idx : FaissIndexModel) (texts : List String)
    (metadata : List Doc) (get_embedding_fn : String → EmbVec)
    (query : String) (top_k : Nat)
    (h : (get_embedding_fn query).length ≠ idx.d) :
    search_similar_documents idx texts metadata get_embedding_fn query top_k
      = .error .assertionError
    ∧ SearchErr.assertionError ≠ SearchErr.dimensionMismatchError := by
  have hf : faissIndexSearch idx (get_embedding_fn query).length top_k
      = .error .assertionError := by
    unfold faissIndexSearch
    rw [if_neg h]
  refine ⟨?_, by decide⟩
  show (match faissIndexSearch idx (get_embedding_fn query).length top_k with
    | .error e => Except.error e
    | .ok hits => Except.ok (buildResults texts metadata hits)) = _
  rw [hf]

/-- C3, witness: a dimension-4 query against a dimension-2 index. -/
theorem claim3_dimension_mismatch_witness :
    search_similar_documents ⟨2, fun _ => []⟩ [] [] (fun _ => [0, 0, 0, 0]) "q" 5
      = .error .assertionError
    ∧ SearchErr.assertionError ≠ SearchErr.dimensionMismatchError :=
  claim3_dimension_mismatch ⟨2, fun _ => []⟩ [] [] (fun _ => [0, 0, 0, 0]) "q" 5
    (by decide)

/-- C5: `build_index` reports failure exactly when no chunk yields a
usable embedding; chunks whose embedding fails are skipped while the
loop continues, so the retained metadata is exactly the successfully
embedded chunks in order. -/
theorem claim5_build_failure_iff (embed : String → Except String EmbVec)
    (content_list : List ContentData) :
    ((build_index embed content_list).1 = false ↔
      ∀ d ∈ collectDocuments content_list, (embed d.text).isOk = false)
    ∧ (build_index embed content_list).2.metadata
        = (collectDocuments content_list).filter (fun d => (embed d.text).isOk) := by
  have hemb : ((collectDocuments content_list).foldl (buildStep embed) ⟨[], [], []⟩).embeddings
      = (collectDocuments content_list).filterMap (fun d => (embed d.text).toOption) := by
    simpa using buildFold_embeddings embed (collectDocuments content_list) ⟨[], [], []⟩
  have hmeta : ((collectDocuments content_list).foldl (buildStep embed) ⟨[], [], []⟩).metadata
      = (collectDocuments content_list).filter (fun d => (embed d.text).isOk) := by
    simpa using buildFold_metadata embed (collectDocuments content_list) ⟨[], [], []⟩
  by_cases hnil :
      ((collectDocuments content_list).foldl (buildStep embed) ⟨[], [], []⟩).embeddings = []
  · have hb : build_index embed content_list
        = (false, (collectDocuments content_list).foldl (buildStep embed) ⟨[], [], []⟩) := by
      simp only [build_index]
      rw [if_pos hnil]
    rw [hb]
    refine ⟨⟨fun _ => ?_, fun _ => rfl⟩, hmeta⟩
    rw [hemb] at hnil
    intro d hd
    exact (exceptToOption_eq_none _).mp (List.filterMap_eq_nil_iff.mp hnil d hd)
  · have hb : build_index embed content_list
        = (true, (collectDocuments content_list).foldl (buildStep embed) ⟨[], [], []⟩) := by
      simp only [build_index]
      rw [if_neg hnil]
    rw [hb]
    refine ⟨⟨fun hcon => by exact absurd hcon (by simp), fun hall => ?_⟩, hmeta⟩
    exfalso
    apply hnil
    rw [hemb]
    exact List.filterMap_eq_nil_iff.mpr
      (fun d hd => (exceptToOption_eq_none _).mpr (hall d hd))

/-- C6: `get_embedding` makes at most `max_retries` attempts; the sleeps
performed are exactly `2^0, 2^1, …` after each failed non-final attempt;
and if every attempt fails, all `max_retries` attempts are made and the
last attempt's error is re-raised. -/
theorem claim6_retry_policy (oracle : Nat → Except String EmbVec) (mr : Nat)
    (h : 1 ≤ mr) :
    (get_embedding oracle mr).2.1 ≤ mr
    ∧ (get_embedding oracle mr).2.2
        = (List.range ((get_embedding oracle mr).2.1 - 1)).map (fun a => 2 ^ a)
    ∧ ((∀ a, a < mr → (oracle a).isOk = false) →
        (get_embedding oracle mr).2.1 = mr
        ∧ ∃ msg, oracle (mr - 1) = .error msg
          ∧ (get_embedding oracle mr).1 = .raised msg) := by
  obtain ⟨⟨_, h2⟩, hs, hf⟩ := getEmbeddingLoop_spec oracle mr mr 0 (by omega) (by omega)
  refine ⟨h2, ?_, fun hall => hf (fun a _ ha => hall a ha)⟩
  rw [List.range_eq_range']
  simpa using hs

/-- C6, witness: an always-failing service with the default
`max_retries = 3`. -/
theorem claim6_retry_policy_witness :
    (get_embedding (fun _ => .error "boom") 3).2.1 ≤ 3
    ∧ (get_embedding (fun _ => .error "boom") 3).2.2
        = (List.range ((get_embedding (fun _ => .error "boom") 3).2.1 - 1)).map
            (fun a => 2 ^ a)
    ∧ ((∀ a, a < 3 →
          ((fun _ => .error "boom" : Nat → Except String EmbVec) a).isOk = false) →
        (get_embedding (fun _ => .error "boom") 3).2.1 = 3
        ∧ ∃ msg, (fun _ => .error "boom" : Nat → Except String EmbVec) (3 - 1)
            = .error msg
          ∧ (get_embedding (fun _ => .error "boom") 3).1 = .raised msg) :=
  claim6_retry_policy (fun _ => .error "boom") 3 (by omega)

/-- C7: for every history, the assembled prompt is exactly one system
message with the context interpolated, then the last (at most 10)
history messages in original order, then one final user message; history
beyond the last 10 messages never appears. -/
theorem claim7_prompt_assembly (user_query context : String) (history : List Message) :
    generate_response_messages user_query context history
      = { role := "system", content := system_prompt_text context }
          :: (history.drop (history.length - 10)
            ++ [{ role := "user", content := user_query }])
    ∧ (history.drop (history.length - 10)).length ≤ 10
    ∧ history.drop (history.length - 10) <:+ history
    ∧ (history.length ≤ 10 → history.drop (history.length - 10) = history) := by
  refine ⟨?_, ?_, List.drop_suffix _ _, ?_⟩
  · by_cases h : history = []
    · subst h
      rfl
    · show ((if history ≠ [] then
          [{ role := "system", content := system_prompt_text context }]
            ++ history.drop (history.length - 10)
        else [{ role := "system", content := system_prompt_text context }])
        ++ [{ role := "user", content := user_query }]) = _
      rw [if_pos h]
      simp
  · rw [List.length_drop]
    omega
  · intro h
    rw [show history.length - 10 = 0 from by omega, List.drop_zero]

/-- C8: every completed `chat` call appends exactly the user turn
followed by the assistant turn to the history, and when the
chat-completion call fails the assistant turn's content is the error
message rather than an exception escaping. -/
theorem claim8_chat_history (retrieve : String → Except String (List SearchResult × String))
    (chat_oracle : List Message → Except String String) (history : List Message)
    (user_query : String) (res : ChatResult) (hist' : List Message)
    (h : chat retrieve chat_oracle history user_query = .ok (res, hist')) :
    hist' = history ++ [{ role := "user", content := user_query },
        { role := "assistant", content := res.response }]
    ∧ ∀ e, chat_oracle (generate_response_messages user_query res.context history)
          = .error e →
        res.response = "生成回答时出错: " ++ e := by
  unfold chat at h
  cases hr : retrieve user_query with
  | error e =>
    rw [hr] at h
    exact Except.noConfusion h
  | ok pair =>
    obtain ⟨docs, ctx⟩ := pair
    rw [hr] at h
    obtain ⟨hres, hhist⟩ := Prod.ext_iff.mp (Except.ok.inj h)
    subst hres
    subst hhist
    refine ⟨rfl, ?_⟩
    intro e he
    show generate_response chat_oracle user_query ctx history = _
    unfold generate_response
    rw [he]

/-- C8, witness: a failing chat completion still appends both turns,
with the error message as the assistant content. -/
theorem claim8_chat_history_witness :
    [({ role := "user", content := "hi" } : Message),
        { role := "assistant", content := "生成回答时出错: down" }]
      = ([] : List Message) ++ [{ role := "user", content := "hi" },
          { role := "assistant",
            content := ({ response := "生成回答时出错: down", context := "CTX"
                          similar_documents := [] } : ChatResult).response }]
    ∧ ∀ e, (fun _ => .error "down" : List Message → Except String String)
            (generate_response_messages "hi"
              ({ response := "生成回答时出错: down", context := "CTX"
                 similar_documents := [] } : ChatResult).context [])
          = .error e →
        ({ response := "生成回答时出错: down", context := "CTX"
           similar_documents := [] } : ChatResult).response = "生成回答时出错: " ++ e :=
  claim8_chat_history (fun _ => .ok ([], "CTX")) (fun _ => .error "down") [] "hi"
    { response := "生成回答时出错: down", context := "CTX", similar_documents := [] }
    [{ role := "user", content := "hi" },
      { role := "assistant", content := "生成回答时出错: down" }] (by decide)

end RagDemo
